import Mathlib

/-!
# Verification of the document layout reconstruction engine

A shallow embedding of `src/backend/utils/file_parser.py` (PDF layout-aware
extraction, DOCX origin detection, DOCX text extraction, the text quality
check, and the file-type dispatching orchestrator), together with theorems
settling the specification's claims about it.

Machine floats of the source are modelled as exact rationals.  Mathlib's `ℚ`
does not reduce in the kernel (its arithmetic normalises through `Nat.gcd`),
so the embedding computes on `Q`, an unnormalised fraction type with a
positive denominator, and transfers order/arithmetic facts to `ℚ` through
`Q.toRat` where a proof needs the ordered-field structure.
-/

/-! ## Exact rationals that evaluate in the kernel -/

/-- An exact rational: an integer numerator over a positive integer
denominator, not normalised (no gcd), so that every operation reduces by
kernel computation alone. -/
structure Q where
  num : ℤ
  den : ℤ
  den_pos : 0 < den

instance : DecidableEq Q := fun a b =>
  decidable_of_iff (a.num = b.num ∧ a.den = b.den) (by
    cases a; cases b; simp)

/-- The rational `n/1`. -/
def qInt (n : ℤ) : Q := ⟨n, 1, one_pos⟩

def qZero : Q := qInt 0

def qadd (a b : Q) : Q :=
  ⟨a.num * b.den + b.num * a.den, a.den * b.den, mul_pos a.den_pos b.den_pos⟩

def qsub (a b : Q) : Q :=
  ⟨a.num * b.den - b.num * a.den, a.den * b.den, mul_pos a.den_pos b.den_pos⟩

def qmul (a b : Q) : Q :=
  ⟨a.num * b.num, a.den * b.den, mul_pos a.den_pos b.den_pos⟩

/-- Division; division by (a representation of) zero yields zero, a case the
modelled code never reaches. -/
def qdiv (a b : Q) : Q :=
  if h : 0 < b.num then ⟨a.num * b.den, a.den * b.num, mul_pos a.den_pos h⟩
  else if h' : b.num < 0 then
    ⟨-(a.num * b.den), a.den * (-b.num), mul_pos a.den_pos (by omega)⟩
  else qZero

/-- `a ≤ b` by cross multiplication (denominators are positive). -/
def qle (a b : Q) : Bool := a.num * b.den ≤ b.num * a.den

/-- `a < b` by cross multiplication. -/
def qlt (a b : Q) : Bool := a.num * b.den < b.num * a.den

/-- Semantic equality of the represented rationals (float `==`). -/
def qeqB (a b : Q) : Bool := a.num * b.den = b.num * a.den

/-- The floor of the represented rational. -/
def qfloor (a : Q) : ℤ := Int.fdiv a.num a.den

/-- The represented rational. -/
def Q.toRat (a : Q) : ℚ := (a.num : ℚ) / (a.den : ℚ)

/-! ## Python string primitives

Models of the Python `str` operations the source uses, defined over the
character list of a `String` so that proofs can proceed by list induction:
`strip()`, `split()`, `splitlines()`, `s.count(sub)`, `sub in s`,
`sep.join(...)`. -/

/-- `str.strip()` on a character list: drop whitespace from both ends. -/
def pyStripL (l : List Char) : List Char :=
  ((l.dropWhile Char.isWhitespace).reverse.dropWhile Char.isWhitespace).reverse

/-- Python `str.strip()`. -/
def pyStrip (s : String) : String := ⟨pyStripL s.data⟩

/-- The maximal runs of non-whitespace characters of a character list. -/
def pyWordsL : List Char → List Char → List (List Char)
  | acc, [] => if acc.isEmpty then [] else [acc.reverse]
  | acc, c :: rest =>
    if c.isWhitespace then
      if acc.isEmpty then pyWordsL [] rest else acc.reverse :: pyWordsL [] rest
    else pyWordsL (c :: acc) rest

/-- Python `str.split()` with no argument: the maximal runs of
non-whitespace characters. -/
def pyWords (s : String) : List String :=
  (pyWordsL [] s.data).map fun l => ⟨l⟩

/-- `str.splitlines()` on a character list: split at `\n`, `\r` and `\r\n`;
a trailing line terminator opens no extra empty line. -/
def pySplitlinesL : List Char → List Char → List (List Char)
  | acc, [] => if acc.isEmpty then [] else [acc.reverse]
  | acc, '\n' :: rest => acc.reverse :: pySplitlinesL [] rest
  | acc, '\r' :: '\n' :: rest => acc.reverse :: pySplitlinesL [] rest
  | acc, '\r' :: rest => acc.reverse :: pySplitlinesL [] rest
  | acc, c :: rest => pySplitlinesL (c :: acc) rest

/-- Python `str.splitlines()`. -/
def pySplitlines (s : String) : List String :=
  (pySplitlinesL [] s.data).map fun l => ⟨l⟩

/-- `sep.join(parts)` on character lists. -/
def pyJoinL (sep : List Char) : List (List Char) → List Char
  | [] => []
  | [x] => x
  | x :: y :: rest => x ++ sep ++ pyJoinL sep (y :: rest)

/-- Python `sep.join(parts)`. -/
def pyJoin (sep : String) (parts : List String) : String :=
  ⟨pyJoinL sep.data (parts.map String.data)⟩

/-- Non-overlapping occurrence count of `sub` in `l`, scanning left to right
(Python `str.count` for a non-empty `sub`); fuel-driven so that the kernel
can evaluate it (`fuel ≥ l.length` suffices: each step consumes ≥ 1
character). -/
def countSubL (sub : List Char) : Nat → List Char → Nat
  | _, [] => 0
  | 0, _ => 0
  | fuel + 1, c :: rest =>
    if sub.isPrefixOf (c :: rest) ∧ ¬ sub.isEmpty then
      1 + countSubL sub fuel ((c :: rest).drop sub.length)
    else
      countSubL sub fuel rest

/-- Python `s.count(sub)` for non-empty `sub`. -/
def pyCount (s sub : String) : Nat := countSubL sub.data s.data.length s.data

/-- Python `sub in s` for non-empty `sub`. -/
def pyContains (s sub : String) : Bool :=
  decide (0 < pyCount s sub)

/-- Python `str.lower()` for the ASCII range (the marker substrings the
source scans for are ASCII). -/
def pyLower (s : String) : String :=
  ⟨s.data.map fun c => if 'A' ≤ c ∧ c ≤ 'Z' then Char.ofNat (c.toNat + 32) else c⟩

/-- Round half to even (Python `round(x)` for a float), on `Q`. -/
def pyRound0 (q : Q) : ℤ :=
  let f := qfloor q
  let r := qsub q (qInt f)
  if qlt r ⟨1, 2, by norm_num⟩ then f
  else if qlt ⟨1, 2, by norm_num⟩ r then f + 1
  else if f % 2 = 0 then f else f + 1

/-- Python `round(x, 1)`: round to one decimal digit, half to even. -/
def pyRound1 (q : Q) : Q :=
  ⟨pyRound0 (qmul q (qInt 10)), 10, by norm_num⟩

/-- Python's stable `sorted` under a strict `lt` comparator: insertion sort
inserting each element before the first strictly greater one, which is the
unique stable sort for the associated total preorder. -/
def stableInsert (lt : α → α → Bool) (x : α) : List α → List α
  | [] => [x]
  | y :: ys => if lt y x then y :: stableInsert lt x ys else x :: y :: ys

/-- Python `sorted(l)` (stable) for the strict comparator `lt`. -/
def pySorted (lt : α → α → Bool) : List α → List α
  | [] => []
  | x :: xs => stableInsert lt x (pySorted lt xs)

/-! ## Positioned-text model (PyMuPDF `page.get_text("blocks")`)

A block is `(x0, y0, x1, y1, text, block_no, block_type)`; only the rectangle
and the text take part in the layout logic, so the model keeps those. -/

/-- A positioned text block of a rendered PDF page. -/
structure Block where
  x0 : Q
  y0 : Q
  x1 : Q
  y1 : Q
  text : String
deriving DecidableEq

/-- A rendered PDF page: its width and its text blocks in renderer order. -/
structure PdfPage where
  width : Q
  blocks : List Block

/-- The blocks with non-empty stripped text (`(b[4] or "").strip()`), the
filter every layout routine of the source applies first. -/
def nonEmptyBlocks (page : PdfPage) : List Block :=
  page.blocks.filter fun b => pyStrip b.text ≠ ""

/-- Default `gap_quantile=0.90` of `_page_two_col_split_x`. -/
def q0_9 : Q := ⟨9, 10, by norm_num⟩

/-- Default `min_gap_ratio=0.08`. -/
def q0_08 : Q := ⟨8, 100, by norm_num⟩

/-- The `0.34` document-level multi-column fraction threshold. -/
def q0_34 : Q := ⟨34, 100, by norm_num⟩

/-- Default `header_top=90.0` of `read_pdf_two_column_left_then_right`. -/
def q90 : Q := qInt 90

/-- The `0.55` short-line ratio threshold of `_looks_bad_text`. -/
def q0_55 : Q := ⟨55, 100, by norm_num⟩

/-- `sorted(b[0] for b in blocks if ...)`: the sorted left edges of the
non-empty blocks. -/
def pageX0s (page : PdfPage) : List Q :=
  pySorted qlt ((nonEmptyBlocks page).map (·.x0))

/-- `zip(x0s, x0s[1:])`. -/
def consecPairs (l : List Q) : List (Q × Q) := l.zip l.tail

/-- `[b - a for a, b in zip(x0s, x0s[1:]) if (b - a) > 0]`. -/
def posGaps (l : List Q) : List Q :=
  (consecPairs l).filterMap fun ab =>
    if qlt qZero (qsub ab.2 ab.1) then some (qsub ab.2 ab.1) else none

/-- `int(max(0, min(len(gaps_sorted) - 1, round(gap_quantile * (len(gaps_sorted) - 1)))))`. -/
def quantIdx (gap_quantile : Q) (n : Nat) : Nat :=
  (max 0 (min ((n : ℤ) - 1) (pyRound0 (qmul gap_quantile (qInt ((n : ℤ) - 1)))))).toNat

/-- `gaps_sorted[idx]`, the quantile gap `_page_two_col_split_x` tests
against `page_width * min_gap_ratio`. -/
def quantGap (page : PdfPage) (gap_quantile : Q) : Q :=
  let gaps_sorted := pySorted qlt (posGaps (pageX0s page))
  gaps_sorted.getD (quantIdx gap_quantile gaps_sorted.length) qZero

/-- The `for a, b in zip(x0s, x0s[1:])` loop of `_page_two_col_split_x`:
keep the midpoint of the first strictly-largest gap seen so far. -/
def bestFold : List (Q × Q) → Q → Option Q → Option Q
  | [], _, acc => acc
  | ab :: rest, best, acc =>
    if qlt best (qsub ab.2 ab.1) then
      bestFold rest (qsub ab.2 ab.1) (some (qdiv (qadd ab.1 ab.2) (qInt 2)))
    else bestFold rest best acc

/-- `_page_two_col_split_x(page, gap_quantile, min_gap_ratio)`: the likely
column split x of a page, or `none` when not confident. -/
def pageTwoColSplitX (page : PdfPage) (gap_quantile min_gap_ratio : Q) : Option Q :=
  let x0s := pageX0s page
  if x0s.length < 12 then none
  else
    let gaps := posGaps x0s
    if gaps.isEmpty then none
    else
      let largest_gap := quantGap page gap_quantile
      if qlt largest_gap (qmul page.width min_gap_ratio) then none
      else bestFold (consecPairs x0s) qZero none

/-- `(x0 + x1) / 2.0`, a block's horizontal centre. -/
def xCenter (b : Block) : Q := qdiv (qadd b.x0 b.x1) (qInt 2)

/-- `is_two_column_pymupdf(page, min_gap_ratio)`. -/
def is_two_column_pymupdf (page : PdfPage) (min_gap_ratio : Q) : Bool :=
  match pageTwoColSplitX page q0_9 min_gap_ratio with
  | none => false
  | some split_x =>
    let left := (nonEmptyBlocks page).countP fun b => qlt (xCenter b) split_x
    let right := (nonEmptyBlocks page).countP fun b => ! qlt (xCenter b) split_x
    decide (0 < left) && decide (0 < right)

/-- The sort key `(round(float(b[1]), 1), round(float(b[0]), 1))`. -/
def blockKeyLt (a b : Block) : Bool :=
  qlt (pyRound1 a.y0) (pyRound1 b.y0) ||
    (qeqB (pyRound1 a.y0) (pyRound1 b.y0) && qlt (pyRound1 a.x0) (pyRound1 b.x0))

/-- `_sort_blocks_reading_order(blocks)`: stable sort by quantized
`(y0, x0)`. -/
def sortBlocksReadingOrder (blocks : List Block) : List Block :=
  pySorted blockKeyLt blocks

/-- One page's text in `read_pdf_sequential`. -/
def seqPageText (page : PdfPage) : String :=
  let blocks := sortBlocksReadingOrder (nonEmptyBlocks page)
  pyJoin "\n" (blocks.filterMap fun b =>
    if pyStrip b.text = "" then none else some (pyStrip b.text))

/-- `read_pdf_sequential(doc)`. -/
def read_pdf_sequential (doc : List PdfPage) : String :=
  let out := doc.map seqPageText
  pyStrip (pyJoin "\n\n" (out.filter fun t => pyStrip t ≠ ""))

/-- The body of the page loop of `read_pdf_two_column_left_then_right`:
`none` models the `continue` on a page with no non-empty blocks. -/
def twoColPage (page : PdfPage) (header_top min_gap_ratio : Q) : Option String :=
  let blocks := nonEmptyBlocks page
  if blocks.isEmpty then none
  else
    match pageTwoColSplitX page q0_9 min_gap_ratio with
    | none =>
      -- fallback: plain reading order, single newlines
      some (pyJoin "\n" ((sortBlocksReadingOrder blocks).map fun b => pyStrip b.text))
    | some split_x =>
      let hb := blocks.partition fun b => qlt b.y0 header_top
      let lr := hb.2.partition fun b => qlt (xCenter b) split_x
      let header := sortBlocksReadingOrder hb.1
      let left := sortBlocksReadingOrder lr.1
      let right := sortBlocksReadingOrder lr.2
      let joined := fun (bs : List Block) =>
        pyStrip (pyJoin "\n" (bs.filterMap fun b =>
          if pyStrip b.text = "" then none else some (pyStrip b.text)))
      let parts := [joined header, joined left, joined right].filter (· ≠ "")
      some (pyStrip (pyJoin "\n\n" parts))

/-- `read_pdf_two_column_left_then_right(doc, header_top, min_gap_ratio)`. -/
def read_pdf_two_column_left_then_right (doc : List PdfPage)
    (header_top min_gap_ratio : Q) : String :=
  let out_pages := doc.filterMap fun p => twoColPage p header_top min_gap_ratio
  pyStrip (pyJoin "\n\n" (out_pages.filter fun t => pyStrip t ≠ ""))

/-- The number of pages `is_two_column_pymupdf` accepts. -/
def twoColCount (doc : List PdfPage) (min_gap_ratio : Q) : Nat :=
  doc.countP fun p => is_two_column_pymupdf p min_gap_ratio

/-- `read_pdf_layout_aware(pdf_path, min_gap_ratio)` on an opened document. -/
def read_pdf_layout_aware (doc : List PdfPage) (min_gap_ratio : Q) : String :=
  let total_pages := doc.length
  let two_col_pages := twoColCount doc min_gap_ratio
  if 0 < total_pages ∧ qle q0_34 (qdiv (qInt two_col_pages) (qInt total_pages)) = true then
    read_pdf_two_column_left_then_right doc q90 min_gap_ratio
  else
    read_pdf_sequential doc

/-! ## DOCX model (python-docx view plus the packaged XML) -/

/-- A run of a DOCX paragraph; only its font name takes part in the logic. -/
structure DocxRun where
  fontName : Option String

/-- A DOCX paragraph: its text and its runs. -/
structure DocxPara where
  text : String
  runs : List DocxRun

/-- A DOCX table: the texts of the cells of each row. -/
structure DocxTable where
  rows : List (List String)

/-- A DOCX document as the source reads it: the python-docx paragraph/table
view and the raw `word/document.xml` (`none` models the `except` path of
`detect_docx_origin`, where the zip read fails and `xml_score` stays 0). -/
structure DocxDoc where
  paras : List DocxPara
  tables : List DocxTable
  docXml : Option String

/-- `[p.text.strip() for p in doc.paragraphs if p.text and p.text.strip()]`. -/
def docxParas (d : DocxDoc) : List String :=
  d.paras.filterMap fun p =>
    let t := pyStrip p.text
    if t = "" then none else some t

/-- The `xml_score` of `detect_docx_origin`: structural conversion markers
read from `word/document.xml` (weights 2, 2, 1, 1). -/
def xmlScore (docXml : Option String) : Nat :=
  match docXml with
  | none => 0
  | some doc_xml =>
    (if pyContains doc_xml "lastRenderedPageBreak" ∨ pyContains doc_xml "w:type=\"page\"" then 2 else 0) +
    (if pyContains doc_xml "txbxContent" ∨ pyContains doc_xml "framePr" ∨
        pyContains doc_xml "posH" ∨ pyContains doc_xml "posV" then 2 else 0) +
    (if 3 ≤ pyCount doc_xml "<w:tbl" then 1 else 0) +
    (if 20 ≤ pyCount doc_xml "<w:br" then 1 else 0)

/-- The converter/watermark marker substrings scanned for in the joined
lowercase paragraph text. -/
def converterMarkers : List String :=
  ["adobe", "acrobat", "converted from pdf", "evaluation warning"]

/-- The full weighted score of `detect_docx_origin` (xml markers plus
paragraph-statistics signals). -/
def originScore (d : DocxDoc) : Nat :=
  let paras := docxParas d
  let total_paras := paras.length
  let word_counts := paras.map fun p => (pyWords p).length
  let short_lines := word_counts.countP fun wc => wc ≤ 3
  let short_ratio := qdiv (qInt short_lines) (qInt (max total_paras 1))
  let avg_words := qdiv (qInt (word_counts.foldr (· + ·) 0)) (qInt (max word_counts.length 1))
  let no_punct_lines := paras.countP fun p =>
    p ≠ "" && ! (".!?:;)".data.contains (p.data.getLastD ' '))
  let no_punct_ratio := qdiv (qInt no_punct_lines) (qInt (max total_paras 1))
  let table_count := d.tables.length
  let joined := pyLower (pyJoin "\n" paras)
  xmlScore d.docXml +
    (if qle ⟨55, 100, by norm_num⟩ short_ratio then 2
     else if qle ⟨40, 100, by norm_num⟩ short_ratio then 1 else 0) +
    (if qlt avg_words (qInt 6) ∧ 60 < total_paras then 1 else 0) +
    (if qle ⟨70, 100, by norm_num⟩ no_punct_ratio ∧ 50 < total_paras then 1 else 0) +
    (if 3 ≤ table_count then 1 else 0) +
    (if converterMarkers.any (fun x => pyContains joined x) then 1 else 0)

/-- Whether a run counts as a "Times New Roman" hit:
`r.font.name and "Times New Roman" in str(r.font.name)`. -/
def tnrHit (r : DocxRun) : Bool :=
  match r.fontName with
  | none => false
  | some n => n ≠ "" && pyContains n "Times New Roman"

/-- The run scan at the end of `detect_docx_origin`: count hits, returning
`DOC_TO_DOCX` the moment the count reaches 10, else `ORIGINAL_DOCX`. -/
def tnrLoop : List DocxRun → Nat → String
  | [], _ => "ORIGINAL_DOCX"
  | r :: rest, hits =>
    if tnrHit r then
      if 10 ≤ hits + 1 then "DOC_TO_DOCX" else tnrLoop rest (hits + 1)
    else tnrLoop rest hits

/-- `detect_docx_origin(docx_path)`. -/
def detect_docx_origin (d : DocxDoc) : String :=
  if (docxParas d).length = 0 then "ORIGINAL_DOCX"
  else if 4 ≤ originScore d then "PDF_CONVERTED_DOCX"
  else tnrLoop (d.paras.flatMap (·.runs)) 0

/-! ## DOCX text extraction (`read_docx_text`) -/

/-- The lines `read_docx_text` collects before de-duplication: non-empty
stripped paragraphs, then each table row as its non-empty stripped cells
joined by `" | "`. -/
def docxLines (d : DocxDoc) : List String :=
  (d.paras.filterMap fun p =>
    let t := pyStrip p.text
    if t = "" then none else some t) ++
  (d.tables.flatMap fun tbl =>
    tbl.rows.filterMap fun row =>
      let row_text := row.filterMap fun c =>
        let ct := pyStrip c
        if ct = "" then none else some ct
      if row_text.isEmpty then none else some (pyJoin " | " row_text))

/-- The `seen`/`out` de-duplication loop of `read_docx_text`. -/
def dedupeLoop : List String → List String → List String
  | [], _ => []
  | ln :: rest, seen =>
    if ln ∈ seen then dedupeLoop rest seen
    else ln :: dedupeLoop rest (ln :: seen)

/-- `read_docx_text(docx_path)`. -/
def read_docx_text (d : DocxDoc) : String :=
  pyStrip (pyJoin "\n" (dedupeLoop (docxLines d) []))

/-! ## The quality check (`_looks_bad_text`) -/

/-- The non-empty stripped lines of a candidate text. -/
def badTextLines (text : String) : List String :=
  (pySplitlines text).filterMap fun ln =>
    let t := pyStrip ln
    if t = "" then none else some t

/-- `_looks_bad_text(text)`. -/
def looks_bad_text (text : String) : Bool :=
  if text = "" ∨ (pyStrip text).length < 200 then true
  else
    let lines := badTextLines text
    if lines.length < 5 then true
    else
      let short := lines.countP fun ln => (pyWords ln).length ≤ 2
      if qlt q0_55 (qdiv (qInt short) (qInt (max lines.length 1)))
      then true else false

/-! ## UTF-8 decoding (`open(..., encoding="utf-8", errors="ignore")`)

The orchestrator reads `.txt` with `errors="ignore"`: ill-formed byte
sequences are dropped.  `utf8DecodeReplace` is modelled from the spec's words
("errors replaced rather than raised"): it emits U+FFFD for each ill-formed
maximal subpart instead, for comparison with the code's behaviour. -/

/-- Is `b` a UTF-8 continuation byte. -/
def utf8Cont (b : Nat) : Bool := 0x80 ≤ b ∧ b ≤ 0xBF

/-- The allowed range of the first continuation byte after lead `b`
(UTF-8 shortest-form and surrogate exclusion). -/
def utf8Cont1Ok (b c : Nat) : Bool :=
  if b = 0xE0 then 0xA0 ≤ c ∧ c ≤ 0xBF
  else if b = 0xED then 0x80 ≤ c ∧ c ≤ 0x9F
  else if b = 0xF0 then 0x90 ≤ c ∧ c ≤ 0xBF
  else if b = 0xF4 then 0x80 ≤ c ∧ c ≤ 0x8F
  else utf8Cont c

/-- Decode one unit from the front of a byte list: the decoded character, or
`none` for an ill-formed maximal subpart, together with the number of bytes
it spans. -/
def utf8Step : List Nat → Option Char × Nat
  | [] => (none, 1)
  | b :: rest =>
    if b < 0x80 then (some (Char.ofNat b), 1)
    else if 0xC2 ≤ b ∧ b ≤ 0xDF then
      match rest with
      | c :: _ =>
        if utf8Cont c then (some (Char.ofNat ((b - 0xC0) * 64 + (c - 0x80))), 2)
        else (none, 1)
      | [] => (none, 1)
    else if 0xE0 ≤ b ∧ b ≤ 0xEF then
      match rest with
      | c :: rest2 =>
        if utf8Cont1Ok b c then
          match rest2 with
          | d :: _ =>
            if utf8Cont d then
              (some (Char.ofNat (((b - 0xE0) * 64 + (c - 0x80)) * 64 + (d - 0x80))), 3)
            else (none, 2)
          | [] => (none, 2)
        else (none, 1)
      | [] => (none, 1)
    else if 0xF0 ≤ b ∧ b ≤ 0xF4 then
      match rest with
      | c :: rest2 =>
        if utf8Cont1Ok b c then
          match rest2 with
          | d :: rest3 =>
            if utf8Cont d then
              match rest3 with
              | e :: _ =>
                if utf8Cont e then
                  (some (Char.ofNat ((((b - 0xF0) * 64 + (c - 0x80)) * 64 + (d - 0x80)) * 64
                      + (e - 0x80))), 4)
                else (none, 3)
              | [] => (none, 3)
            else (none, 2)
          | [] => (none, 2)
        else (none, 1)
      | [] => (none, 1)
    else (none, 1)

/-- Decode UTF-8, handling each ill-formed maximal subpart by emitting
`err` (so `err = []` is `errors="ignore"`, `err = [U+FFFD]` is
`errors="replace"`); fuel-driven so that the kernel can evaluate it
(`fuel ≥ bytes.length` suffices: each step consumes ≥ 1 byte). -/
def utf8Decode (err : List Char) : Nat → List Nat → List Char
  | _, [] => []
  | 0, _ => []
  | fuel + 1, b :: rest =>
    let s := utf8Step (b :: rest)
    (match s.1 with | some c => [c] | none => err) ++
      utf8Decode err fuel ((b :: rest).drop (max 1 s.2))

/-- `errors="ignore"`: drop ill-formed sequences. -/
def utf8DecodeIgnore (bytes : List Nat) : String :=
  ⟨utf8Decode [] bytes.length bytes⟩

/-- Modelled from the spec: "UTF-8, errors replaced rather than raised" —
ill-formed sequences become U+FFFD. -/
def utf8DecodeReplace (bytes : List Nat) : String :=
  ⟨utf8Decode [Char.ofNat 0xFFFD] bytes.length bytes⟩

/-! ## The orchestrator (`extract_text_from_file`) -/

instance : DecidableEq (Except String String) := fun a b =>
  match a, b with
  | .ok x, .ok y => decidable_of_iff (x = y) (by simp)
  | .error x, .error y => decidable_of_iff (x = y) (by simp)
  | .ok _, .error _ => isFalse (by simp)
  | .error _, .ok _ => isFalse (by simp)

/-- An input file: its (lowercased) extension and its content as each reader
would see it — positioned pages for the PDF renderer, the python-docx view,
and the raw bytes for the plain-text reader. -/
structure InputFile where
  ext : String
  pdf : List PdfPage
  docx : DocxDoc
  bytes : List Nat

/-- `extract_text_from_file(file_path)`: `.ok` is a returned string, `.error`
the message of the raised wrapped exception. -/
def extract_text_from_file (f : InputFile) : Except String String :=
  if f.ext = ".pdf" then .ok (read_pdf_layout_aware f.pdf q0_08)
  else if f.ext = ".docx" then
    let origin := detect_docx_origin f.docx
    let text := read_docx_text f.docx
    -- `origin == PDF_CONVERTED_DOCX and _looks_bad_text(text)` only logs a
    -- warning; the DOCX text is returned either way.
    let _warned := origin = "PDF_CONVERTED_DOCX" ∧ looks_bad_text text
    .ok text
  else if f.ext = ".txt" then .ok (utf8DecodeIgnore f.bytes)
  else .error ("Failed to extract text from file: Unsupported file type: " ++ f.ext)

/-! ## Claim-side renderings

Definitions following the spec's words, to be compared with the code-side
functions above. -/

/-- The spec's sequential page rendering: the page's non-empty fragments in
reading order, trimmed texts joined by newlines. -/
def seqRender (page : PdfPage) : String :=
  pyJoin "\n" ((sortBlocksReadingOrder (nonEmptyBlocks page)).map fun b => pyStrip b.text)

/-- The two-region rendering of a page at a given split, as §4.3 words it
with the code's sort key: header band (`y0` above the threshold), then body
fragments with centre left of the split, then the rest, each group sorted by
the quantized `(top, left)` key, non-empty group texts joined by a blank
line. -/
def twoRegionRender (page : PdfPage) (header_top split_x : Q) : String :=
  let blocks := nonEmptyBlocks page
  let header := sortBlocksReadingOrder (blocks.filter fun b => qlt b.y0 header_top)
  let left := sortBlocksReadingOrder (blocks.filter fun b =>
    ! qlt b.y0 header_top && qlt (xCenter b) split_x)
  let right := sortBlocksReadingOrder (blocks.filter fun b =>
    ! qlt b.y0 header_top && ! qlt (xCenter b) split_x)
  let txt := fun (bs : List Block) => pyStrip (pyJoin "\n" (bs.map fun b => pyStrip b.text))
  pyStrip (pyJoin "\n\n" ([txt header, txt left, txt right].filter (· ≠ "")))

/-- The sort key claim C7 states: quantized top, then the *exact* left
coordinate as the secondary key. -/
def blockKeyLtLeftExact (a b : Block) : Bool :=
  qlt (pyRound1 a.y0) (pyRound1 b.y0) ||
    (qeqB (pyRound1 a.y0) (pyRound1 b.y0) && qlt a.x0 b.x0)

/-- The two-region rendering with claim C7's `(quantized top, exact left)`
group order. -/
def twoRegionRenderLeftExact (page : PdfPage) (header_top split_x : Q) : String :=
  let blocks := nonEmptyBlocks page
  let header := pySorted blockKeyLtLeftExact (blocks.filter fun b => qlt b.y0 header_top)
  let left := pySorted blockKeyLtLeftExact (blocks.filter fun b =>
    ! qlt b.y0 header_top && qlt (xCenter b) split_x)
  let right := pySorted blockKeyLtLeftExact (blocks.filter fun b =>
    ! qlt b.y0 header_top && ! qlt (xCenter b) split_x)
  let txt := fun (bs : List Block) => pyStrip (pyJoin "\n" (bs.map fun b => pyStrip b.text))
  pyStrip (pyJoin "\n\n" ([txt header, txt left, txt right].filter (· ≠ "")))

/-- First occurrences only: keep each line, dropping every later duplicate
of it (the order claim C10 states for `read_docx_text`). -/
def firstOccurrences : List String → List String
  | [] => []
  | x :: xs => x :: firstOccurrences (xs.filter (· ≠ x))
  termination_by l => l.length
  decreasing_by
    simp only [List.length_cons]
    exact Nat.lt_succ_of_le (List.length_filter_le _ _)

/-! ## Concrete inputs -/

/-- A block with integer coordinates. -/
def mkBlock (x0 y0 x1 y1 : ℤ) (t : String) : Block :=
  ⟨qInt x0, qInt y0, qInt x1, qInt y1, t⟩

/-- C1's counterexample page: 12 fragments, eleven x0 values 0..10 and one
at 600, on a 1000-unit-wide page.  The largest gap (590) is ≥ 8% of the
width, yet the 0.90-quantile gap is 1, so the detector bails out. -/
def cPage1 : PdfPage :=
  ⟨qInt 1000,
    [mkBlock 0 10 10 20 "t", mkBlock 1 20 11 30 "t", mkBlock 2 30 12 40 "t",
     mkBlock 3 40 13 50 "t", mkBlock 4 50 14 60 "t", mkBlock 5 60 15 70 "t",
     mkBlock 6 70 16 80 "t", mkBlock 7 80 17 90 "t", mkBlock 8 90 18 100 "t",
     mkBlock 9 100 19 110 "t", mkBlock 10 110 20 120 "t",
     mkBlock 600 10 610 20 "t"]⟩

/-- A two-cluster page the detector accepts: six fragments at x0 = 50 and
six at x0 = 650 on a 1000-unit-wide page; the only positive gap is 600 and
the split is its midpoint 350. -/
def cPage2 : PdfPage :=
  ⟨qInt 1000,
    [mkBlock 50 10 150 20 "a", mkBlock 50 30 150 40 "b", mkBlock 50 50 150 60 "c",
     mkBlock 50 70 150 80 "d", mkBlock 50 90 150 100 "e", mkBlock 50 110 150 120 "f",
     mkBlock 650 10 750 20 "g", mkBlock 650 30 750 40 "h", mkBlock 650 50 750 60 "i",
     mkBlock 650 70 750 80 "j", mkBlock 650 90 750 100 "k", mkBlock 650 110 750 120 "l"]⟩

/-- A single-block page: too few fragments for any split. -/
def cPlain : PdfPage := ⟨qInt 1000, [mkBlock 10 10 100 20 "hello"]⟩

/-- A 4-page document with 1 multi-column page (fraction 0.25 < 0.34). -/
def doc4a : List PdfPage := [cPage2, cPlain, cPlain, cPlain]

/-- A 4-page document with 2 multi-column pages (fraction 0.5 ≥ 0.34). -/
def doc4b : List PdfPage := [cPage2, cPage2, cPlain, cPlain]

/-- C3's no-confident-split page: a header fragment (y0 = 10 < 90) and one
body fragment; only 2 fragments, so the detector returns no split. -/
def pageB : PdfPage :=
  ⟨qInt 1000, [mkBlock 10 10 200 20 "H", mkBlock 10 100 200 110 "B1"]⟩

/-- C3's document: one qualifying multi-column page plus `pageB`
(fraction 0.5 ≥ 0.34, so the whole document takes the two-region path). -/
def docD3 : List PdfPage := [cPage2, pageB]

/-- C7's counterexample page: a valid split at 300.22, and two left-column
fragments on one line whose x0 values 0.44 and 0.41 quantize to the same
0.4, so the code's stable sort keeps their renderer order. -/
def cPage7 : PdfPage :=
  ⟨qInt 1000,
    [mkBlock 0 110 10 120 "c", mkBlock 0 120 10 130 "d",
     mkBlock 0 130 10 140 "e", mkBlock 0 140 10 150 "f",
     ⟨⟨44, 100, by norm_num⟩, qInt 100, qInt 10, qInt 110, "A"⟩,
     ⟨⟨41, 100, by norm_num⟩, qInt 100, qInt 10, qInt 110, "B"⟩,
     mkBlock 600 100 610 110 "u", mkBlock 600 110 610 120 "v",
     mkBlock 600 120 610 130 "w", mkBlock 600 130 610 140 "x",
     mkBlock 600 140 610 150 "y", mkBlock 600 150 610 160 "z"]⟩

/-- C8's counterexample fragments: strictly increasing `y0` (0.41 then
0.44) quantizing to the same 0.4 band, the lower one further left. -/
def blk8A : Block := ⟨qInt 5, ⟨41, 100, by norm_num⟩, qInt 15, qInt 1, "A"⟩

def blk8B : Block := ⟨qInt 1, ⟨44, 100, by norm_num⟩, qInt 11, qInt 1, "B"⟩

/-- C8's counterexample page: `blk8A` before `blk8B`, an order that is
already strictly top-to-bottom, yet the reading-order sort swaps them. -/
def cPage8 : PdfPage := ⟨qInt 1000, [blk8A, blk8B]⟩

/-- An already-ordered plain page for C8's amended theorem's witness. -/
def cPage8w : PdfPage :=
  ⟨qInt 1000, [mkBlock 10 10 100 20 "first", mkBlock 10 30 100 40 "second"]⟩

/-- An empty DOCX document. -/
def docxEmpty : DocxDoc := ⟨[], [], none⟩

/-- C2's DOCX: one paragraph plus packaged-XML conversion markers worth 4
points, so the classifier yields `PDF_CONVERTED_DOCX`. -/
def docxD2 : DocxDoc :=
  ⟨[⟨"hello world", []⟩], [],
   some "<w:body>lastRenderedPageBreak txbxContent</w:body>"⟩

/-- C2's input file: a `.docx` classified as PDF-converted. -/
def fileF2 : InputFile := ⟨".docx", [], docxD2, []⟩

/-- C9's text file: bytes `H`, `0xFF` (ill-formed), `i`. -/
def fileF9 : InputFile := ⟨".txt", [], docxEmpty, [72, 255, 105]⟩

/-- An input with an extension outside {.pdf, .docx, .doc, .txt}. -/
def fileFxyz : InputFile := ⟨".xyz", [], docxEmpty, []⟩

/-- A 50-character string (C5: rejected for being under 200 characters). -/
def s50 : String := "aaaaaaaaaaaaaaaaaaaaaaaaaaaaaaaaaaaaaaaaaaaaaaaaaa"

/-- A 10-line text of more than 200 characters in which exactly 7 lines have
at most 2 words (C5: rejected, 70% > 55%). -/
def s10 : String :=
  "the quick brown fox jumps over the lazy dog by the river bank today\n" ++
  "word\nword\nword\n" ++
  "the quick brown fox jumps over the lazy dog by the river bank today\n" ++
  "word\nword\nword\n" ++
  "the quick brown fox jumps over the lazy dog by the river bank today\n" ++
  "word"

/-- An 8-line, 300-plus-character paragraph of normal prose
(C5: accepted). -/
def s8 : String :=
  "this line has quite a few ordinary words in it\n" ++
  "this line has quite a few ordinary words in it\n" ++
  "this line has quite a few ordinary words in it\n" ++
  "this line has quite a few ordinary words in it\n" ++
  "this line has quite a few ordinary words in it\n" ++
  "this line has quite a few ordinary words in it\n" ++
  "this line has quite a few ordinary words in it\n" ++
  "this line has quite a few ordinary words in it"

/-! ## Helper lemmas: transfer to Mathlib rationals -/

theorem Q.den_ne (a : Q) : (a.den : ℚ) ≠ 0 := by
  exact_mod_cast ne_of_gt (by exact_mod_cast a.den_pos : (0:ℚ) < a.den)

theorem qle_iff (a b : Q) : qle a b = true ↔ a.toRat ≤ b.toRat := by
  have ha : (0:ℚ) < a.den := by exact_mod_cast a.den_pos
  have hb : (0:ℚ) < b.den := by exact_mod_cast b.den_pos
  rw [Q.toRat, Q.toRat, div_le_div_iff ha hb, qle]
  constructor
  · intro h; exact_mod_cast (by exact_mod_cast of_decide_eq_true h :
      (a.num * b.den : ℚ) ≤ b.num * a.den)
  · intro h; exact decide_eq_true (by exact_mod_cast h)

theorem qlt_iff (a b : Q) : qlt a b = true ↔ a.toRat < b.toRat := by
  have ha : (0:ℚ) < a.den := by exact_mod_cast a.den_pos
  have hb : (0:ℚ) < b.den := by exact_mod_cast b.den_pos
  rw [Q.toRat, Q.toRat, div_lt_div_iff ha hb, qlt]
  constructor
  · intro h; exact_mod_cast (by exact_mod_cast of_decide_eq_true h :
      (a.num * b.den : ℚ) < b.num * a.den)
  · intro h; exact decide_eq_true (by exact_mod_cast h)

theorem qeqB_iff (a b : Q) : qeqB a b = true ↔ a.toRat = b.toRat := by
  have ha : (0:ℚ) < a.den := by exact_mod_cast a.den_pos
  have hb : (0:ℚ) < b.den := by exact_mod_cast b.den_pos
  rw [Q.toRat, Q.toRat, div_eq_div_iff (ne_of_gt ha) (ne_of_gt hb), qeqB]
  constructor
  · intro h; exact_mod_cast (by exact_mod_cast of_decide_eq_true h :
      (a.num * b.den : ℚ) = b.num * a.den)
  · intro h; exact decide_eq_true (by exact_mod_cast h)

theorem toRat_qadd (a b : Q) : (qadd a b).toRat = a.toRat + b.toRat := by
  have ha := a.den_ne; have hb := b.den_ne
  simp only [qadd, Q.toRat]
  push_cast
  field_simp

theorem toRat_qsub (a b : Q) : (qsub a b).toRat = a.toRat - b.toRat := by
  have ha := a.den_ne; have hb := b.den_ne
  simp only [qsub, Q.toRat]
  push_cast
  field_simp
  ring

theorem toRat_qmul (a b : Q) : (qmul a b).toRat = a.toRat * b.toRat := by
  have ha := a.den_ne; have hb := b.den_ne
  simp only [qmul, Q.toRat]
  push_cast
  field_simp

theorem toRat_qInt (n : ℤ) : (qInt n).toRat = (n : ℚ) := by
  simp [qInt, Q.toRat]

theorem qle_total (a b : Q) : qle a b = true ∨ qle b a = true := by
  rw [qle_iff, qle_iff]; exact le_total _ _

theorem qlt_eq_false_iff (a b : Q) : qlt a b = false ↔ b.toRat ≤ a.toRat := by
  rw [← Bool.not_eq_true, qlt_iff, not_lt]

theorem qle_eq_false_iff (a b : Q) : qle a b = false ↔ b.toRat < a.toRat := by
  rw [← Bool.not_eq_true, qle_iff, not_le]

/-! ## Helper lemmas: the stable sort -/

theorem stableInsert_eq_cons (lt : α → α → Bool) (x : α) (l : List α)
    (h : ∀ y ∈ l, lt y x = false) : stableInsert lt x l = x :: l := by
  cases l with
  | nil => rfl
  | cons y ys => simp [stableInsert, h y (by simp)]

/-- A list already ordered for the comparator (no later element strictly
below an earlier one) is left unchanged by the stable sort. -/
theorem pySorted_eq_self (lt : α → α → Bool) (l : List α)
    (h : l.Pairwise fun a b => lt b a = false) : pySorted lt l = l := by
  induction l with
  | nil => rfl
  | cons x xs ih =>
    rw [List.pairwise_cons] at h
    rw [pySorted, ih h.2, stableInsert_eq_cons]
    exact h.1

theorem mem_stableInsert (lt : α → α → Bool) (x y : α) (l : List α) :
    y ∈ stableInsert lt x l ↔ y = x ∨ y ∈ l := by
  induction l with
  | nil => simp [stableInsert]
  | cons z zs ih =>
    rw [stableInsert]
    split
    · simp only [List.mem_cons, ih]
      tauto
    · simp only [List.mem_cons]

theorem mem_pySorted (lt : α → α → Bool) (y : α) (l : List α) :
    y ∈ pySorted lt l ↔ y ∈ l := by
  induction l with
  | nil => simp [pySorted]
  | cons x xs ih =>
    rw [pySorted, mem_stableInsert, ih, List.mem_cons]

theorem length_stableInsert (lt : α → α → Bool) (x : α) (l : List α) :
    (stableInsert lt x l).length = l.length + 1 := by
  induction l with
  | nil => rfl
  | cons z zs ih =>
    rw [stableInsert]
    split
    · simpa using ih
    · simp

theorem length_pySorted (lt : α → α → Bool) (l : List α) :
    (pySorted lt l).length = l.length := by
  induction l with
  | nil => rfl
  | cons x xs ih => simp [pySorted, length_stableInsert, ih]

/-! ## Helper lemmas: stripping and joining -/

theorem dropWhile_eq_self_of_head? (p : α → Bool) (l : List α)
    (h : ∀ d, l.head? = some d → p d = false) : l.dropWhile p = l := by
  cases l with
  | nil => rfl
  | cons a t => rw [List.dropWhile_cons, h a rfl]; simp

theorem head?_dropWhile_not (p : α → Bool) (l : List α) (d : α)
    (h : (l.dropWhile p).head? = some d) : p d = false := by
  induction l with
  | nil => simp at h
  | cons a t ih =>
    rw [List.dropWhile_cons] at h
    by_cases hpa : p a = true
    · rw [if_pos hpa] at h; exact ih h
    · rw [if_neg hpa] at h
      simp only [List.head?_cons, Option.some.injEq] at h
      subst h
      simpa using hpa

/-- A list whose first and last characters are not whitespace strips to
itself. -/
theorem pyStripL_eq_self (l : List Char)
    (hh : ∀ d, l.head? = some d → d.isWhitespace = false)
    (hl : ∀ d, l.getLast? = some d → d.isWhitespace = false) : pyStripL l = l := by
  unfold pyStripL
  rw [dropWhile_eq_self_of_head? _ _ hh]
  rw [dropWhile_eq_self_of_head? _ _ (by rw [List.head?_reverse]; exact hl)]
  exact List.reverse_reverse l

/-- A list containing a non-whitespace character does not strip to
nothing. -/
theorem pyStripL_ne_nil (l : List Char) (c : Char) (hc : c ∈ l)
    (hw : c.isWhitespace = false) : pyStripL l ≠ [] := by
  intro e
  unfold pyStripL at e
  rw [List.reverse_eq_nil_iff, List.dropWhile_eq_nil_iff] at e
  rcases hm : l.dropWhile Char.isWhitespace with _ | ⟨d, ds⟩
  · rw [List.dropWhile_eq_nil_iff] at hm
    rw [hm c hc] at hw
    simp at hw
  · have hd : d.isWhitespace = false :=
      head?_dropWhile_not _ l d (by rw [hm]; rfl)
    have hmem : d ∈ (l.dropWhile Char.isWhitespace).reverse := by rw [hm]; simp
    rw [e d hmem] at hd
    simp at hd

/-- The first character of a stripped list is not whitespace. -/
theorem pyStripL_head? (l : List Char) (d : Char)
    (h : (pyStripL l).head? = some d) : d.isWhitespace = false := by
  unfold pyStripL at h
  rw [List.head?_reverse] at h
  obtain ⟨t, ht⟩ :=
    List.dropWhile_suffix (l := (l.dropWhile Char.isWhitespace).reverse) Char.isWhitespace
  rcases hn : (l.dropWhile Char.isWhitespace).reverse.dropWhile Char.isWhitespace with _ | ⟨x, xs⟩
  · rw [hn] at h; simp at h
  · have hlast : (l.dropWhile Char.isWhitespace).reverse.getLast? = some d := by
      rw [← ht, List.getLast?_append, hn, ← h, hn]
      simp [List.getLast?_eq_getLast (x :: xs) (by simp)]
    rw [List.getLast?_reverse] at hlast
    exact head?_dropWhile_not _ _ _ hlast

/-- The last character of a stripped list is not whitespace. -/
theorem pyStripL_getLast? (l : List Char) (d : Char)
    (h : (pyStripL l).getLast? = some d) : d.isWhitespace = false := by
  unfold pyStripL at h
  rw [List.getLast?_reverse] at h
  exact head?_dropWhile_not _ _ _ h

theorem pyJoinL_ne_nil (sep x : List Char) (ps : List (List Char))
    (hx : x ≠ []) : pyJoinL sep (x :: ps) ≠ [] := by
  cases ps with
  | nil => simpa [pyJoinL] using hx
  | cons y r => simp [pyJoinL, hx]

theorem pyJoinL_head? (sep x : List Char) (ps : List (List Char))
    (hx : x ≠ []) : (pyJoinL sep (x :: ps)).head? = x.head? := by
  cases ps with
  | nil => rfl
  | cons y r =>
    obtain ⟨c, t, rfl⟩ := List.exists_cons_of_ne_nil hx
    simp [pyJoinL, List.head?_append]

theorem pyJoinL_getLast? (sep : List Char) (ps : List (List Char)) (hne : ps ≠ [])
    (hall : ∀ p ∈ ps, p ≠ []) :
    (pyJoinL sep ps).getLast? = (ps.getLast hne).getLast? := by
  induction ps with
  | nil => simp at hne
  | cons x r ih =>
    cases r with
    | nil => simp [pyJoinL]
    | cons y rr =>
      have hy : pyJoinL sep (y :: rr) ≠ [] := pyJoinL_ne_nil _ _ _ (hall y (by simp))
      have hJ := List.getLast?_eq_getLast _ hy
      show (x ++ sep ++ pyJoinL sep (y :: rr)).getLast? = _
      rw [List.getLast?_append, hJ]
      show some _ = _
      rw [← hJ, ih (by simp) fun p hp => hall p (List.mem_cons_of_mem _ hp)]
      simp [List.getLast_cons]

/-- The result of `pyStrip` never begins or ends with whitespace, so
stripping a separator-join of non-empty stripped parts changes nothing. -/
theorem pyStrip_pyJoin_stripped (sep : String) (parts : List String)
    (hne : parts ≠ [])
    (h : ∀ p ∈ parts, (∃ s, p = pyStrip s) ∧ p ≠ "") :
    pyStrip (pyJoin sep parts) = pyJoin sep parts := by
  obtain ⟨p0, rest, rfl⟩ := List.exists_cons_of_ne_nil hne
  have hdata : ∀ p ∈ p0 :: rest, p.data ≠ [] := by
    intro p hp e
    exact (h p hp).2 (by cases p; cases e; rfl)
  have hp0ne : p0.data ≠ [] := hdata p0 (by simp)
  have hh : ∀ d, (pyJoinL sep.data ((p0 :: rest).map String.data)).head? = some d →
      d.isWhitespace = false := by
    intro d hd
    rw [show (p0 :: rest).map String.data = p0.data :: rest.map String.data from rfl,
      pyJoinL_head? _ _ _ hp0ne] at hd
    obtain ⟨s, hs⟩ := (h p0 (by simp)).1
    rw [hs] at hd
    exact pyStripL_head? _ _ hd
  have hall : ∀ q ∈ (p0 :: rest).map String.data, q ≠ [] := by
    intro q hq
    obtain ⟨p, hp, rfl⟩ := List.mem_map.mp hq
    exact hdata p hp
  have hl : ∀ d, (pyJoinL sep.data ((p0 :: rest).map String.data)).getLast? = some d →
      d.isWhitespace = false := by
    intro d hd
    rw [pyJoinL_getLast? sep.data _ (by simp) hall] at hd
    have hmem : ((p0 :: rest).map String.data).getLast (by simp) ∈
        (p0 :: rest).map String.data := List.getLast_mem _
    obtain ⟨p, hp, hpe⟩ := List.mem_map.mp hmem
    rw [← hpe] at hd
    obtain ⟨s, hs⟩ := (h p hp).1
    rw [hs] at hd
    exact pyStripL_getLast? _ _ hd
  show String.mk (pyStripL (pyJoinL sep.data ((p0 :: rest).map String.data))) = _
  rw [pyStripL_eq_self _ hh hl]
  rfl

/-- A string with a non-whitespace character does not strip to empty. -/
theorem pyStrip_ne_empty (s : String) (c : Char) (hc : c ∈ s.data)
    (hw : c.isWhitespace = false) : pyStrip s ≠ "" := by
  intro e
  have : pyStripL s.data = [] := by
    have := congrArg String.data e
    simpa [pyStrip] using this
  exact pyStripL_ne_nil s.data c hc hw this

/-! ## Helper lemmas: the layout pipeline -/

theorem mem_nonEmptyBlocks (p : PdfPage) (b : Block) (hb : b ∈ nonEmptyBlocks p) :
    pyStrip b.text ≠ "" := by
  have := List.of_mem_filter hb
  exact of_decide_eq_true this

/-- On blocks whose stripped text is non-empty, the source's
`(b[4] or "").strip()`-with-filter generator is just a map. -/
theorem filterMap_strip_eq_map (bs : List Block)
    (h : ∀ b ∈ bs, pyStrip b.text ≠ "") :
    (bs.filterMap fun b =>
      if pyStrip b.text = "" then none else some (pyStrip b.text))
      = bs.map fun b => pyStrip b.text := by
  induction bs with
  | nil => rfl
  | cons b r ih =>
    have hb := h b (by simp)
    simp only [List.filterMap_cons, List.map_cons]
    rw [if_neg hb]
    rw [ih fun x hx => h x (List.mem_cons_of_mem _ hx)]

theorem seqPageText_eq_seqRender (p : PdfPage) : seqPageText p = seqRender p := by
  rw [seqPageText, seqRender, filterMap_strip_eq_map]
  intro b hb
  exact mem_nonEmptyBlocks p b ((mem_pySorted _ _ _).mp hb)

/-- The split detector only answers on pages with at least 12 non-empty
fragments, so such a page has non-empty blocks. -/
theorem nonEmptyBlocks_ne_nil_of_split (p : PdfPage) (gq r s : Q)
    (hs : pageTwoColSplitX p gq r = some s) : nonEmptyBlocks p ≠ [] := by
  intro e
  rw [pageTwoColSplitX] at hs
  simp [pageX0s, e, pySorted] at hs

set_option maxHeartbeats 1000000 in
/-- The page body of the two-region pass, on a page with a confident split,
is exactly the spec's header/left/right rendering at that split. -/
theorem twoColPage_eq_twoRegionRender (p : PdfPage) (ht r s : Q)
    (hs : pageTwoColSplitX p q0_9 r = some s) :
    twoColPage p ht r = some (twoRegionRender p ht s) := by
  have hblocks := nonEmptyBlocks_ne_nil_of_split p q0_9 r s hs
  have hmem : ∀ (f : Block → Bool) (b : Block),
      b ∈ sortBlocksReadingOrder ((nonEmptyBlocks p).filter f) → pyStrip b.text ≠ "" := by
    intro f b hb
    exact mem_nonEmptyBlocks p b
      (List.mem_of_mem_filter ((mem_pySorted _ _ _).mp hb))
  rw [twoColPage]
  rw [if_neg (by simpa [List.isEmpty_iff] using hblocks)]
  rw [hs]
  show some _ = some _
  congr 1
  rw [twoRegionRender]
  simp only [List.partition_eq_filter_filter, List.filter_filter]
  have hfL : (nonEmptyBlocks p).filter
        (fun a => qlt (xCenter a) s && (not ∘ fun b => qlt b.y0 ht) a) =
      (nonEmptyBlocks p).filter (fun b => !qlt b.y0 ht && qlt (xCenter b) s) :=
    List.filter_congr fun b _ => by
      simp only [Function.comp]
      exact Bool.and_comm _ _
  have hfR : (nonEmptyBlocks p).filter
        (fun a => (not ∘ fun b => qlt (xCenter b) s) a && (not ∘ fun b => qlt b.y0 ht) a) =
      (nonEmptyBlocks p).filter (fun b => !qlt b.y0 ht && !qlt (xCenter b) s) :=
    List.filter_congr fun b _ => by
      simp only [Function.comp]
      exact Bool.and_comm _ _
  rw [hfL, hfR]
  rw [filterMap_strip_eq_map _ (hmem _), filterMap_strip_eq_map _ (hmem _),
    filterMap_strip_eq_map _ (hmem _)]

/-- The page body of the two-region pass on a page with no confident split:
the sequential fallback. -/
theorem twoColPage_none_eq (p : PdfPage) (ht r : Q)
    (hn : pageTwoColSplitX p q0_9 r = none) :
    twoColPage p ht r =
      if (nonEmptyBlocks p).isEmpty then none else some (seqRender p) := by
  rw [twoColPage, hn]
  split
  · rfl
  · rfl

/-! ## Helper lemmas: ratios and the gap fold -/

theorem toRat_qdiv (a b : Q) : (qdiv a b).toRat = a.toRat / b.toRat := by
  have ha := a.den_ne
  have hb := b.den_ne
  rw [qdiv]
  split_ifs with h1 h2
  · have hbn : (b.num : ℚ) ≠ 0 := by exact_mod_cast ne_of_gt h1
    simp only [Q.toRat]
    push_cast
    field_simp
  · have hbn : (b.num : ℚ) ≠ 0 := by
      intro e
      exact absurd (by exact_mod_cast e : b.num = 0) (by omega)
    simp only [Q.toRat]
    push_cast
    field_simp
  · have hbn : b.num = 0 := by omega
    simp [Q.toRat, qZero, qInt, hbn]

/-- Cross-multiplied form of comparing a constant with a ratio of
naturals. -/
theorem qle_const_ratio (c : Q) (s n : ℕ) (hn : 0 < n) :
    (qle c (qdiv (qInt s) (qInt n)) = true ↔ c.num * n ≤ s * c.den) := by
  rw [qle_iff, toRat_qdiv, toRat_qInt, toRat_qInt, Q.toRat]
  have hc : (0:ℚ) < (c.den : ℚ) := by exact_mod_cast c.den_pos
  have hnq : (0:ℚ) < (n:ℚ) := by exact_mod_cast hn
  push_cast
  rw [div_le_div_iff hc hnq]
  exact ⟨fun h => by exact_mod_cast h, fun h => by exact_mod_cast h⟩

theorem qlt_const_ratio (c : Q) (s n : ℕ) (hn : 0 < n) :
    (qlt c (qdiv (qInt s) (qInt n)) = true ↔ c.num * n < s * c.den) := by
  rw [qlt_iff, toRat_qdiv, toRat_qInt, toRat_qInt, Q.toRat]
  have hc : (0:ℚ) < (c.den : ℚ) := by exact_mod_cast c.den_pos
  have hnq : (0:ℚ) < (n:ℚ) := by exact_mod_cast hn
  push_cast
  rw [div_lt_div_iff hc hnq]
  exact ⟨fun h => by exact_mod_cast h, fun h => by exact_mod_cast h⟩

/-- What the midpoint fold of `_page_two_col_split_x` returns: either no
pair ever beat `best` and the accumulator is returned, or the midpoint of a
maximal-gap pair is. -/
theorem bestFold_spec (pairs : List (Q × Q)) (best : Q) (acc : Option Q) :
    (bestFold pairs best acc = acc ∧
      ∀ ab ∈ pairs, (qsub ab.2 ab.1).toRat ≤ best.toRat) ∨
    (∃ ab ∈ pairs, bestFold pairs best acc = some (qdiv (qadd ab.1 ab.2) (qInt 2)) ∧
      best.toRat < (qsub ab.2 ab.1).toRat ∧
      ∀ cd ∈ pairs, (qsub cd.2 cd.1).toRat ≤ (qsub ab.2 ab.1).toRat) := by
  induction pairs generalizing best acc with
  | nil => left; exact ⟨rfl, by simp⟩
  | cons ab rest ih =>
    rcases hq : qlt best (qsub ab.2 ab.1) with _ | _
    · -- no update: the head pair does not beat `best`
      have hle : (qsub ab.2 ab.1).toRat ≤ best.toRat := (qlt_eq_false_iff _ _).mp hq
      rw [show bestFold (ab :: rest) best acc = bestFold rest best acc by
        rw [bestFold, hq]; simp]
      rcases ih best acc with ⟨he, hall⟩ | ⟨cd, hcd, he, hlt, hall⟩
      · left
        refine ⟨he, ?_⟩
        intro cd hcd
        rcases List.mem_cons.mp hcd with rfl | hmem
        · exact hle
        · exact hall cd hmem
      · right
        refine ⟨cd, List.mem_cons_of_mem _ hcd, he, hlt, ?_⟩
        intro ef hef
        rcases List.mem_cons.mp hef with rfl | hmem
        · exact le_trans hle (le_of_lt hlt)
        · exact hall ef hmem
    · -- update: the head pair strictly beats `best`
      have hgt : best.toRat < (qsub ab.2 ab.1).toRat := (qlt_iff _ _).mp hq
      rw [show bestFold (ab :: rest) best acc =
          bestFold rest (qsub ab.2 ab.1) (some (qdiv (qadd ab.1 ab.2) (qInt 2))) by
        rw [bestFold, hq]; simp]
      rcases ih (qsub ab.2 ab.1) (some (qdiv (qadd ab.1 ab.2) (qInt 2))) with
        ⟨he, hall⟩ | ⟨cd, hcd, he, hlt, hall⟩
      · right
        refine ⟨ab, by simp, he, hgt, ?_⟩
        intro cd hcd
        rcases List.mem_cons.mp hcd with rfl | hmem
        · exact le_refl _
        · exact hall cd hmem
      · right
        refine ⟨cd, List.mem_cons_of_mem _ hcd, he, lt_trans hgt hlt, ?_⟩
        intro ef hef
        rcases List.mem_cons.mp hef with rfl | hmem
        · exact le_of_lt hlt
        · exact hall ef hmem

/-- Membership in the positive-gap list. -/
theorem mem_posGaps (l : List Q) (g : Q) :
    g ∈ posGaps l ↔
      ∃ ab ∈ consecPairs l, qlt qZero (qsub ab.2 ab.1) = true ∧ g = qsub ab.2 ab.1 := by
  rw [posGaps, List.mem_filterMap]
  constructor
  · rintro ⟨ab, hab, he⟩
    by_cases hpos : qlt qZero (qsub ab.2 ab.1) = true
    · rw [if_pos hpos] at he
      exact ⟨ab, hab, hpos, (Option.some.injEq _ _ ▸ he).symm⟩
    · rw [if_neg hpos] at he
      exact absurd he (by simp)
  · rintro ⟨ab, hab, hpos, rfl⟩
    exact ⟨ab, hab, by rw [if_pos hpos]⟩

/-! ## Helper lemmas: the split detector's branches -/

theorem pageTwoColSplitX_none_short (p : PdfPage) (gq r : Q)
    (h : (pageX0s p).length < 12) : pageTwoColSplitX p gq r = none := by
  simp [pageTwoColSplitX, h]

theorem pageTwoColSplitX_none_nogaps (p : PdfPage) (gq r : Q)
    (h : posGaps (pageX0s p) = []) : pageTwoColSplitX p gq r = none := by
  by_cases h12 : (pageX0s p).length < 12
  · simp [pageTwoColSplitX, h12]
  · simp [pageTwoColSplitX, h12, h]

theorem pageTwoColSplitX_none_quant (p : PdfPage) (gq r : Q)
    (hq : qlt (quantGap p gq) (qmul p.width r) = true) :
    pageTwoColSplitX p gq r = none := by
  by_cases h12 : (pageX0s p).length < 12
  · simp [pageTwoColSplitX, h12]
  · by_cases hg : posGaps (pageX0s p) = []
    · simp [pageTwoColSplitX, h12, hg]
    · simp [pageTwoColSplitX, h12, hg, hq]

theorem pageTwoColSplitX_fold (p : PdfPage) (gq r : Q)
    (h12 : ¬ (pageX0s p).length < 12) (hg : posGaps (pageX0s p) ≠ [])
    (hq : qlt (quantGap p gq) (qmul p.width r) = false) :
    pageTwoColSplitX p gq r = bestFold (consecPairs (pageX0s p)) qZero none := by
  simp [pageTwoColSplitX, h12, hg, hq]

/-! ## Helper lemmas: the classifier's run scan and the de-duplication -/

/-- The early-exit Times-New-Roman scan, entered below the exit threshold,
answers exactly by comparing the total hit count with 10. -/
theorem tnrLoop_eq_count (runs : List DocxRun) (hits : Nat) (h : hits < 10) :
    tnrLoop runs hits =
      (if 10 ≤ hits + runs.countP tnrHit then "DOC_TO_DOCX" else "ORIGINAL_DOCX") := by
  induction runs generalizing hits with
  | nil => simp [tnrLoop, Nat.not_le.mpr h]
  | cons r rest ih =>
    rw [tnrLoop]
    by_cases hr : tnrHit r
    · rw [if_pos hr]
      by_cases h10 : 10 ≤ hits + 1
      · rw [if_pos h10, if_pos (by rw [List.countP_cons, if_pos hr]; omega)]
      · rw [if_neg h10, ih (hits + 1) (by omega), List.countP_cons, if_pos hr]
        by_cases hc : 10 ≤ hits + 1 + rest.countP tnrHit
        · rw [if_pos hc, if_pos (by omega)]
        · rw [if_neg hc, if_neg (by omega)]
    · rw [if_neg hr, ih hits h, List.countP_cons, if_neg hr]
      simp

/-- The `seen`/`out` loop keeps exactly the first occurrence of each line
not already seen. -/
theorem dedupeLoop_eq_firstOccurrences (l : List String) : ∀ seen,
    dedupeLoop l seen = firstOccurrences (l.filter fun x => ¬ x ∈ seen) := by
  induction l with
  | nil => intro seen; simp [dedupeLoop, firstOccurrences]
  | cons x xs ih =>
    intro seen
    by_cases hx : x ∈ seen
    · rw [dedupeLoop, if_pos hx, List.filter_cons,
        if_neg (by simpa using hx)]
      exact ih seen
    · rw [dedupeLoop, if_neg hx, List.filter_cons,
        if_pos (by simpa using hx)]
      rw [firstOccurrences]
      congr 1
      rw [ih (x :: seen), List.filter_filter]
      congr 1
      apply List.filter_congr
      intro a _
      by_cases hax : a = x
      · simp [hax]
      · simp [hax, Ne.symm hax]

/-! ## Helper lemmas: the document-level strategy decision -/

theorem layoutAware_two_col_of_fraction (doc : List PdfPage) (hne : doc ≠ [])
    (hfrac : 34 * doc.length ≤ 100 * twoColCount doc q0_08) :
    read_pdf_layout_aware doc q0_08 =
      read_pdf_two_column_left_then_right doc q90 q0_08 := by
  have hpos : 0 < doc.length := List.length_pos.mpr hne
  have hq : qle q0_34 (qdiv (qInt (twoColCount doc q0_08)) (qInt doc.length)) = true := by
    rw [qle_const_ratio _ _ _ hpos]
    show (34:ℤ) * doc.length ≤ (twoColCount doc q0_08 : ℤ) * 100
    omega
  simp only [read_pdf_layout_aware]
  rw [if_pos ⟨hpos, hq⟩]

theorem layoutAware_seq_of_fraction (doc : List PdfPage) (hne : doc ≠ [])
    (hfrac : 100 * twoColCount doc q0_08 < 34 * doc.length) :
    read_pdf_layout_aware doc q0_08 = read_pdf_sequential doc := by
  have hpos : 0 < doc.length := List.length_pos.mpr hne
  have hq : ¬ (qle q0_34 (qdiv (qInt (twoColCount doc q0_08)) (qInt doc.length)) = true) := by
    rw [qle_const_ratio _ _ _ hpos]
    show ¬ ((34:ℤ) * doc.length ≤ (twoColCount doc q0_08 : ℤ) * 100)
    omega
  simp only [read_pdf_layout_aware]
  rw [if_neg fun hc => hq hc.2]

/-! ## The claims -/

/-- C1 (corrected): the detector returns no split when the fragment count is
below 12, when no positive gap exists, or when the 0.90-quantile gap is
below `min_gap_ratio` times the page width; when the quantile gap passes,
the split is the midpoint of a pair of consecutive sorted x0 values whose
gap is maximal.  On the 1000-unit-wide page `cPage2` (six fragments at
x0 = 50, six at x0 = 650) the split is 350 — within 350±50 — and the page
is classified multi-column. -/
theorem C1_split_at_quantile_checked_largest_gap :
    (∀ (p : PdfPage) (r : Q), (pageX0s p).length < 12 →
      pageTwoColSplitX p q0_9 r = none) ∧
    (∀ (p : PdfPage) (r : Q), posGaps (pageX0s p) = [] →
      pageTwoColSplitX p q0_9 r = none) ∧
    (∀ (p : PdfPage) (r : Q), qlt (quantGap p q0_9) (qmul p.width r) = true →
      pageTwoColSplitX p q0_9 r = none) ∧
    (∀ (p : PdfPage) (r : Q), 12 ≤ (pageX0s p).length → posGaps (pageX0s p) ≠ [] →
      qlt (quantGap p q0_9) (qmul p.width r) = false →
      ∃ ab ∈ consecPairs (pageX0s p),
        (∀ g ∈ posGaps (pageX0s p), g.toRat ≤ (qsub ab.2 ab.1).toRat) ∧
        pageTwoColSplitX p q0_9 r = some (qdiv (qadd ab.1 ab.2) (qInt 2))) ∧
    pageTwoColSplitX cPage2 q0_9 q0_08 = some ⟨700, 2, by norm_num⟩ ∧
    qeqB ⟨700, 2, by norm_num⟩ (qInt 350) = true ∧
    qle (qInt 300) ⟨700, 2, by norm_num⟩ = true ∧
    qle ⟨700, 2, by norm_num⟩ (qInt 400) = true ∧
    is_two_column_pymupdf cPage2 q0_08 = true := by
  refine ⟨fun p r h => pageTwoColSplitX_none_short p q0_9 r h,
    fun p r h => pageTwoColSplitX_none_nogaps p q0_9 r h,
    fun p r h => pageTwoColSplitX_none_quant p q0_9 r h,
    ?_, by decide, by decide, by decide, by decide, by decide⟩
  intro p r h12 hg hq
  rw [pageTwoColSplitX_fold p q0_9 r (by omega) hg hq]
  rcases bestFold_spec (consecPairs (pageX0s p)) qZero none with
    ⟨_, hall⟩ | ⟨ab, hab, he, _, hall⟩
  · obtain ⟨g, hgmem⟩ := List.exists_mem_of_ne_nil _ hg
    obtain ⟨ab, hab, hpos, rfl⟩ := (mem_posGaps _ _).mp hgmem
    exact absurd (hall ab hab) (not_le_of_lt ((qlt_iff _ _).mp hpos))
  · refine ⟨ab, hab, ?_, he⟩
    intro g hgmem
    obtain ⟨cd, hcd, _, rfl⟩ := (mem_posGaps _ _).mp hgmem
    exact hall cd hcd

/-- C1 counterexample: a 1000-unit-wide page with 12 non-empty fragments at
x0 = 0..10 and 600.  Its largest gap, 590 (between the consecutive x0
values 10 and 600), is at least 0.08 × 1000 = 80, yet the detector returns
no split, because the 0.90-quantile gap it actually checks is 1. -/
theorem C1_counterexample :
    (pageX0s cPage1).length = 12 ∧
    (qInt 10, qInt 600) ∈ consecPairs (pageX0s cPage1) ∧
    ((posGaps (pageX0s cPage1)).foldr (fun a b => if qle a b then b else a) qZero)
      = qInt 590 ∧
    qle (qmul cPage1.width q0_08) (qInt 590) = true ∧
    pageTwoColSplitX cPage1 q0_9 q0_08 = none := by
  exact ⟨by decide, by decide, by decide, by decide, by decide⟩

/-- C2 (corrected): for every `.docx` input the orchestrator returns the
paragraph-level DOCX extraction; a conversion-derived classification only
changes what is logged, never the result. -/
theorem C2_docx_returns_paragraph_extraction (f : InputFile) (h : f.ext = ".docx") :
    extract_text_from_file f = .ok (read_docx_text f.docx) := by
  rw [extract_text_from_file, if_neg (by rw [h]; decide), if_pos h]

/-- C2 witness: the theorem applied to the PDF-converted file `fileF2`. -/
theorem C2_witness :
    extract_text_from_file fileF2 = .ok (read_docx_text fileF2.docx) :=
  C2_docx_returns_paragraph_extraction fileF2 rfl

/-- C2 counterexample: `fileF2` is classified `PDF_CONVERTED_DOCX`, yet the
orchestrator returns exactly the paragraph-level DOCX extraction — no
layout-aware extraction of a PDF-equivalent rendering exists in the code. -/
theorem C2_counterexample :
    detect_docx_origin fileF2.docx = "PDF_CONVERTED_DOCX" ∧
    extract_text_from_file fileF2 = .ok (read_docx_text fileF2.docx) ∧
    read_docx_text fileF2.docx = "hello world" := by
  exact ⟨by decide, by decide, by decide⟩

/-- C3 (corrected): when the document-level multi-column fraction reaches
0.34, the whole document is routed through the two-region pass; within that
pass a page with a confident split is rendered header/left/right, but a page
with no confident split falls back to plain sequential ordering — as the
concrete no-split page `pageB` shows. -/
theorem C3_two_region_document_policy :
    (∀ doc : List PdfPage, doc ≠ [] →
      34 * doc.length ≤ 100 * twoColCount doc q0_08 →
      read_pdf_layout_aware doc q0_08 =
        read_pdf_two_column_left_then_right doc q90 q0_08) ∧
    (∀ p : PdfPage, pageTwoColSplitX p q0_9 q0_08 = none →
      twoColPage p q90 q0_08 =
        if (nonEmptyBlocks p).isEmpty then none else some (seqRender p)) ∧
    (∀ (p : PdfPage) (s : Q), pageTwoColSplitX p q0_9 q0_08 = some s →
      twoColPage p q90 q0_08 = some (twoRegionRender p q90 s)) ∧
    34 * docD3.length ≤ 100 * twoColCount docD3 q0_08 ∧
    twoColPage pageB q90 q0_08 = some (seqRender pageB) := by
  refine ⟨fun doc hne hfrac => layoutAware_two_col_of_fraction doc hne hfrac,
    fun p hp => twoColPage_none_eq p q90 q0_08 hp,
    fun p s hs => twoColPage_eq_twoRegionRender p q90 q0_08 s hs,
    by decide, by decide⟩

/-- C3 counterexample: in `docD3` (fraction 1/2 ≥ 0.34, so every page takes
the two-region pass) the no-split page `pageB` is emitted as `"H\nB1"` —
plain sequential order with a single newline — while the two-region
header/left/right rendering of that page is `"H\n\nB1"` for every possible
split: the body block lands in one column for any split, and the header is
followed by a blank line. -/
theorem C3_counterexample :
    read_pdf_layout_aware docD3 q0_08 =
      read_pdf_two_column_left_then_right docD3 q90 q0_08 ∧
    34 * docD3.length ≤ 100 * twoColCount docD3 q0_08 ∧
    pageTwoColSplitX pageB q0_9 q0_08 = none ∧
    twoColPage pageB q90 q0_08 = some "H\nB1" ∧
    twoRegionRender pageB q90 (qInt 0) = "H\n\nB1" ∧
    twoRegionRender pageB q90 (qInt 1000) = "H\n\nB1" ∧
    ("H\nB1" : String) ≠ "H\n\nB1" := by
  exact ⟨by decide, by decide, by decide, by decide, by decide, by decide, by decide⟩

/-- C4 (confirmed): for a non-empty document the whole-document strategy is
the two-region one exactly when the fraction of pages individually detected
multi-column is at least 0.34, and sequential otherwise; a 4-page document
with 1 multi-column page reconstructs sequentially, one with 2 of 4 uses the
two-region pass. -/
theorem C4_document_level_multicolumn_threshold :
    (∀ doc : List PdfPage, doc ≠ [] →
      (34 * doc.length ≤ 100 * twoColCount doc q0_08 →
        read_pdf_layout_aware doc q0_08 =
          read_pdf_two_column_left_then_right doc q90 q0_08) ∧
      (100 * twoColCount doc q0_08 < 34 * doc.length →
        read_pdf_layout_aware doc q0_08 = read_pdf_sequential doc)) ∧
    twoColCount doc4a q0_08 = 1 ∧ doc4a.length = 4 ∧
    read_pdf_layout_aware doc4a q0_08 = read_pdf_sequential doc4a ∧
    twoColCount doc4b q0_08 = 2 ∧ doc4b.length = 4 ∧
    read_pdf_layout_aware doc4b q0_08 =
      read_pdf_two_column_left_then_right doc4b q90 q0_08 := by
  refine ⟨fun doc hne => ⟨fun h => layoutAware_two_col_of_fraction doc hne h,
      fun h => layoutAware_seq_of_fraction doc hne h⟩,
    by decide, by decide, by decide, by decide, by decide, by decide⟩

/-- C7 (corrected): a two-region page with a confident split concatenates
header, left-of-split body, then remaining body, each group sorted by the
quantized `(top, left)` key — both coordinates rounded to 0.1 — with
non-empty group texts joined by a blank line. -/
theorem C7_two_region_page_rendering (p : PdfPage) (ht r s : Q)
    (hs : pageTwoColSplitX p q0_9 r = some s) :
    twoColPage p ht r = some (twoRegionRender p ht s) :=
  twoColPage_eq_twoRegionRender p ht r s hs

/-- C7 witness: the theorem applied to the concrete page `cPage7` with its
split 300.22. -/
theorem C7_witness :
    twoColPage cPage7 q90 q0_08 =
      some (twoRegionRender cPage7 q90 ⟨60044, 200, by norm_num⟩) :=
  C7_two_region_page_rendering cPage7 q90 q0_08 ⟨60044, 200, by norm_num⟩ (by decide)

/-- C7 counterexample: on `cPage7` two left-column fragments share a line;
their x0 values 0.44 and 0.41 both quantize to 0.4, so the code keeps their
renderer order ("A" then "B"), while sorting by the *exact* left coordinate
— the claim's secondary key — would put "B" (x0 = 0.41) first. -/
theorem C7_counterexample :
    pageTwoColSplitX cPage7 q0_9 q0_08 = some ⟨60044, 200, by norm_num⟩ ∧
    twoColPage cPage7 q90 q0_08 = some "A\nB\nc\nd\ne\nf\n\nu\nv\nw\nx\ny\nz" ∧
    twoRegionRenderLeftExact cPage7 q90 ⟨60044, 200, by norm_num⟩ =
      "B\nA\nc\nd\ne\nf\n\nu\nv\nw\nx\ny\nz" ∧
    ("A\nB\nc\nd\ne\nf\n\nu\nv\nw\nx\ny\nz" : String) ≠
      "B\nA\nc\nd\ne\nf\n\nu\nv\nw\nx\ny\nz" := by
  exact ⟨by decide, by decide, by decide, by decide⟩

set_option maxRecDepth 40000 in
/-- C5 (confirmed): the quality check rejects a text exactly when its
trimmed length is under 200 characters, or it has fewer than 5 non-empty
lines, or strictly more than 55% of its non-empty lines have at most 2
words; it rejects the 50-character `s50` and the 10-line `s10` with 7 short
lines, and accepts the 8-line 300-plus-character prose `s8`. -/
theorem C5_quality_assessor_characterisation :
    (∀ text : String, looks_bad_text text = true ↔
      ((pyStrip text).length < 200 ∨ (badTextLines text).length < 5 ∨
        55 * (badTextLines text).length <
          100 * ((badTextLines text).countP fun ln => (pyWords ln).length ≤ 2))) ∧
    looks_bad_text s50 = true ∧ (pyStrip s50).length = 50 ∧
    looks_bad_text s10 = true ∧ (badTextLines s10).length = 10 ∧
    ((badTextLines s10).countP fun ln => (pyWords ln).length ≤ 2) = 7 ∧
    200 ≤ (pyStrip s10).length ∧
    looks_bad_text s8 = false ∧ (badTextLines s8).length = 8 ∧
    300 ≤ (pyStrip s8).length := by
  refine ⟨?_, by decide, by decide, by decide, by decide, by decide, by decide,
    by decide, by decide, by decide⟩
  intro text
  simp only [looks_bad_text]
  by_cases h1 : text = "" ∨ (pyStrip text).length < 200
  · rw [if_pos h1]
    simp only [true_iff]
    left
    rcases h1 with h1 | h1
    · rw [h1]; decide
    · exact h1
  · rw [if_neg h1]
    push_neg at h1
    by_cases h2 : (badTextLines text).length < 5
    · rw [if_pos h2]
      simp only [true_iff]
      exact Or.inr (Or.inl h2)
    · rw [if_neg h2]
      have hlen : 0 < (badTextLines text).length := by omega
      have hmax : (((badTextLines text).length : ℤ) ⊔ 1) =
          ((badTextLines text).length : ℤ) := by
        omega
      rw [hmax]
      have hiff := qlt_const_ratio q0_55
        ((badTextLines text).countP fun ln => (pyWords ln).length ≤ 2)
        (badTextLines text).length hlen
      have h55 : q0_55.num = 55 := rfl
      have h100 : q0_55.den = 100 := rfl
      rw [h55, h100] at hiff
      by_cases hq : qlt q0_55 (qdiv
          (qInt ((badTextLines text).countP fun ln => (pyWords ln).length ≤ 2))
          (qInt (badTextLines text).length)) = true
      · rw [if_pos hq]
        simp only [true_iff]
        right; right
        have hc := hiff.mp hq
        omega
      · rw [if_neg hq]
        simp only [Bool.false_eq_true, false_iff]
        push_neg
        refine ⟨h1.2, Nat.le_of_not_lt h2, ?_⟩
        have hc : ¬ ((55:ℤ) * (badTextLines text).length <
            ((badTextLines text).countP fun ln => (pyWords ln).length ≤ 2) * 100) :=
          fun hcc => hq (hiff.mpr hcc)
        omega

/-- C6 (confirmed): the origin classifier returns `ORIGINAL_DOCX` on zero
non-empty paragraphs, else `PDF_CONVERTED_DOCX` exactly when the weighted
signal score reaches 4, else `DOC_TO_DOCX` (the legacy-converted label)
exactly when "Times New Roman" is the font of at least 10 runs, else
`ORIGINAL_DOCX`. -/
theorem C6_origin_classifier_structure (d : DocxDoc) :
    detect_docx_origin d =
      (if (docxParas d).length = 0 then "ORIGINAL_DOCX"
       else if 4 ≤ originScore d then "PDF_CONVERTED_DOCX"
       else if 10 ≤ (d.paras.flatMap (·.runs)).countP tnrHit then "DOC_TO_DOCX"
       else "ORIGINAL_DOCX") := by
  rw [detect_docx_origin]
  by_cases h0 : (docxParas d).length = 0
  · rw [if_pos h0, if_pos h0]
  · rw [if_neg h0, if_neg h0]
    by_cases h4 : 4 ≤ originScore d
    · rw [if_pos h4, if_pos h4]
    · rw [if_neg h4, if_neg h4, tnrLoop_eq_count _ 0 (by omega)]
      simp

/-- C9 (corrected): a `.txt` input is returned decoded as UTF-8 with
ill-formed byte sequences dropped (`errors="ignore"`), and any extension
outside {.pdf, .docx, .doc, .txt} yields a reported error, never an empty
result.  (`.doc` also errors, which the claim's error clause does not
contradict.) -/
theorem C9_txt_and_unsupported_extension :
    (∀ f : InputFile, f.ext = ".txt" →
      extract_text_from_file f = .ok (utf8DecodeIgnore f.bytes)) ∧
    (∀ f : InputFile, f.ext ∉ [".pdf", ".docx", ".doc", ".txt"] →
      extract_text_from_file f =
        .error ("Failed to extract text from file: Unsupported file type: " ++ f.ext)) ∧
    extract_text_from_file fileF9 = .ok (utf8DecodeIgnore fileF9.bytes) ∧
    extract_text_from_file fileFxyz =
      .error "Failed to extract text from file: Unsupported file type: .xyz" := by
  refine ⟨?_, ?_, by decide, by decide⟩
  · intro f h
    rw [extract_text_from_file, if_neg (by rw [h]; decide),
      if_neg (by rw [h]; decide), if_pos h]
  · intro f h
    have h1 : ¬ (f.ext = ".pdf") := fun e => h (by rw [e]; simp)
    have h2 : ¬ (f.ext = ".docx") := fun e => h (by rw [e]; simp)
    have h4 : ¬ (f.ext = ".txt") := fun e => h (by rw [e]; simp)
    rw [extract_text_from_file, if_neg h1, if_neg h2, if_neg h4]

/-- C9 counterexample: the text file `fileF9` holds the bytes
`[72, 0xFF, 105]`; the orchestrator returns `"Hi"` — the ill-formed byte is
dropped — whereas decoding with replacement would give `"H�i"`. -/
theorem C9_counterexample :
    extract_text_from_file fileF9 = .ok "Hi" ∧
    utf8DecodeReplace fileF9.bytes = "H�i" ∧
    ("Hi" : String) ≠ "H�i" := by
  exact ⟨by decide, by decide, by decide⟩

/-- C10 (confirmed): the native DOCX extraction returns exactly the
first-occurrence-distinct non-empty lines (paragraphs, then table rows) in
document order, joined by newlines — every later duplicate of an earlier
line is dropped. -/
theorem C10_docx_extraction_dedupes_lines (d : DocxDoc) :
    read_docx_text d = pyStrip (pyJoin "\n" (firstOccurrences (docxLines d))) := by
  rw [read_docx_text, dedupeLoop_eq_firstOccurrences (docxLines d) []]
  have he : ((docxLines d).filter fun x => ¬ x ∈ ([] : List String)) = docxLines d := by
    simp
  rw [he]

/-- C8 (corrected): on a page whose non-empty fragments arrive already
ordered non-decreasingly by the quantized `(round(top,1), round(left,1))`
key, the Sequential reconstructor returns exactly their trimmed texts in the
given order, newline-joined, with no reordering. -/
theorem C8_sequential_preserves_sorted_input (p : PdfPage)
    (h1 : nonEmptyBlocks p ≠ [])
    (h2 : (nonEmptyBlocks p).Pairwise fun a b => blockKeyLt b a = false) :
    read_pdf_sequential [p] =
      pyJoin "\n" ((nonEmptyBlocks p).map fun b => pyStrip b.text) := by
  have hsort : sortBlocksReadingOrder (nonEmptyBlocks p) = nonEmptyBlocks p := by
    rw [sortBlocksReadingOrder]
    exact pySorted_eq_self _ _ h2
  have htext : seqPageText p =
      pyJoin "\n" ((nonEmptyBlocks p).map fun b => pyStrip b.text) := by
    rw [seqPageText_eq_seqRender, seqRender, hsort]
  have hparts : ∀ q ∈ (nonEmptyBlocks p).map fun b => pyStrip b.text,
      (∃ s, q = pyStrip s) ∧ q ≠ "" := by
    intro q hq
    obtain ⟨b, hb, rfl⟩ := List.mem_map.mp hq
    exact ⟨⟨b.text, rfl⟩, mem_nonEmptyBlocks p b hb⟩
  have hmapne : ((nonEmptyBlocks p).map fun b => pyStrip b.text) ≠ [] := by
    simpa using h1
  have hjoin := pyStrip_pyJoin_stripped "\n" _ hmapne hparts
  obtain ⟨q0, qrest, hq⟩ := List.exists_cons_of_ne_nil hmapne
  have hq0 : q0.data ≠ [] := by
    intro e
    exact (hparts q0 (by rw [hq]; simp)).2 (by cases q0; cases e; rfl)
  have hJne : pyJoinL "\n".data
      (((nonEmptyBlocks p).map fun b => pyStrip b.text).map String.data) ≠ [] := by
    rw [hq, List.map_cons]
    exact pyJoinL_ne_nil _ _ _ hq0
  have hne : pyStrip (seqPageText p) ≠ "" := by
    rw [htext, hjoin]
    intro e
    exact hJne (congrArg String.data e)
  rw [read_pdf_sequential]
  simp only [List.map_cons, List.map_nil]
  have hfilter : ([seqPageText p].filter fun t => pyStrip t ≠ "") = [seqPageText p] := by
    simp [hne]
  rw [hfilter]
  show pyStrip (seqPageText p) = _
  rw [htext, hjoin]

/-- C8 witness: the theorem applied to the already-ordered page `cPage8w`. -/
theorem C8_witness :
    read_pdf_sequential [cPage8w] =
      pyJoin "\n" ((nonEmptyBlocks cPage8w).map fun b => pyStrip b.text) :=
  C8_sequential_preserves_sorted_input cPage8w (by decide) (by decide)

/-- C8 counterexample: `cPage8` lists `blk8A` (y0 = 0.41, x0 = 5) before
`blk8B` (y0 = 0.44, x0 = 1) — strictly top-to-bottom — yet both tops
quantize to 0.4, so the reconstructor sorts by quantized left coordinate and
returns `"B\nA"` instead of the input-order concatenation `"A\nB"`. -/
theorem C8_counterexample :
    qlt blk8A.y0 blk8B.y0 = true ∧
    nonEmptyBlocks cPage8 = [blk8A, blk8B] ∧
    read_pdf_sequential [cPage8] = "B\nA" ∧
    pyJoin "\n" [pyStrip blk8A.text, pyStrip blk8B.text] = "A\nB" ∧
    ("B\nA" : String) ≠ "A\nB" := by
  exact ⟨by decide, by decide, by decide, by decide, by decide⟩
